import Mathlib

/-!
Verification development for the Chasm bin archive codec of SLADE
(src/src/Application/SLADEWxApp.cpp, functions ChasmBinArchive::open,
ChasmBinArchive::write, ChasmBinArchive::loadEntryData and
ChasmBinArchive::isChasmBinArchive).

The codec source is embedded shallowly: byte buffers are lists of
natural numbers, machine integers are naturals reduced modulo the word
size at the operations where the C++ code truncates, and the helper
classes that are not part of the source excerpt (MemChunk, ArchiveEntry,
the header constants of ChasmBinArchive.h) are modelled from the spec,
as marked on each such definition.

The format constants NAME_SIZE and MAX_ENTRY_COUNT are format specific
and are not fixed by the spec, so every definition is parametric in
them (written NS and MAX below); HEADER_SIZE is fixed by the spec as a
4 byte magic plus a 16 bit entry count.
-/

namespace ChasmBin

/-- Modelled from the spec: the header is the 4 byte magic plus a 16 bit
little endian entry count; the constant itself lives in the missing
header ChasmBinArchive.h. -/
def HEADER_SIZE : Nat := 6

/-- Modelled from the spec: a directory record is NAME_SIZE bytes of
Pascal style name plus 4 bytes of size plus 4 bytes of offset; the
constant lives in the missing header ChasmBinArchive.h and is kept
parametric in NS here. -/
def ENTRY_SIZE (NS : Nat) : Nat := NS + 8

/-- Size of header plus the full fixed capacity directory table,
HEADER_TOC_SIZE in the source. -/
def headerTocSize (NS MAX : Nat) : Nat := HEADER_SIZE + ENTRY_SIZE NS * MAX

/-- 2 to the power 32, the modulus of uint32 arithmetic. -/
def M32 : Nat := 4294967296

/-- The magic bytes of the format: the characters C, S, i, d. -/
def magicBytes : List Nat := [67, 83, 105, 100]

/-- Little endian encoding of a 16 bit value. -/
def le16 (n : Nat) : List Nat := [n % 256, n / 256 % 256]

/-- Little endian encoding of a 32 bit value. -/
def le32 (n : Nat) : List Nat :=
  [n % 256, n / 256 % 256, n / 65536 % 256, n / 16777216 % 256]

/-- Little endian decoding of a 2 byte slice. -/
def rd16 (bs : List Nat) : Nat := bs.getD 0 0 + 256 * bs.getD 1 0

/-- Little endian decoding of a 4 byte slice. -/
def rd32 (bs : List Nat) : Nat :=
  bs.getD 0 0 + 256 * bs.getD 1 0 + 65536 * bs.getD 2 0 + 16777216 * bs.getD 3 0

/-- Entry modification state, from ArchiveEntry::State. -/
inductive EState
  | Unmodified
  | Modified
  | New
  deriving DecidableEq

/-- Modelled from the spec: the ArchiveEntry class is not part of the
source excerpt.  An entry has a name, an authoritative 32 bit size, an
optional payload (empty when not loaded), a loaded flag, a state, the
Offset property stashed in the property bag, and the detected type
identifier. -/
structure CEntry where
  name : List Nat
  size : Nat
  data : List Nat
  loaded : Bool
  state : EState
  offsetProp : Nat
  etype : String
  deriving DecidableEq

/-- Archive state visible to the codec: the directory (flattened entry
list, insertion ordered), the modified flag and the muted flag. -/
structure Arch where
  dir : List CEntry
  modified : Bool
  muted : Bool
  deriving DecidableEq

/-- A MemChunk reader: the buffer plus the current cursor. -/
structure Rd where
  buf : List Nat
  cur : Nat

/-- Modelled from the spec: MemChunk::read reads n bytes at the cursor
and advances it; a read that would run past the end of the buffer fails
and leaves both the cursor and the destination unchanged (the
destination is returned as none). -/
def rdBytes (n : Nat) (s : Rd) : Option (List Nat) × Rd :=
  if s.cur + n ≤ s.buf.length then
    (some ((s.buf.drop s.cur).take n), ⟨s.buf, s.cur + n⟩)
  else
    (none, s)

/-- The bytes of a C string: everything up to the first zero byte.
Used when an ArchiveEntry is constructed from a char array. -/
def takeUntilZero : List Nat → List Nat
  | [] => []
  | b :: rest => if b = 0 then [] else b :: takeUntilZero rest

/-- One iteration of the directory reading loop of open: read the
NAME_SIZE byte raw name, the 32 bit size and the 32 bit offset.  The
name char array is zero initialized in the source, so a failed name
read leaves zeros; the size and offset locals are uninitialized in the
source and a failed read of them is undefined behaviour there, modelled
as the value zero (no claim exercises that path). -/
def readSlot (NS : Nat) (s : Rd) : List Nat × Nat × Nat × Rd :=
  let p1 := rdBytes NS s
  let nameRaw := p1.1.getD (List.replicate NS 0)
  let p2 := rdBytes 4 p1.2
  let size := rd32 (p2.1.getD [0, 0, 0, 0])
  let p3 := rdBytes 4 p2.2
  let offset := rd32 (p3.1.getD [0, 0, 0, 0])
  (nameRaw, size, offset, p3.2)

/-- The directory reading loop of open.  For each slot: read the slot,
apply the uint32 bounds check of the source (the sum offset + size is
computed in 32 bit arithmetic, hence the modulus), and on success
convert the Pascal name to a C string (shift left by one byte, final
byte forced to zero) and append the new entry to the directory.  On a
bounds violation the loop stops with failure, keeping the entries
appended so far. -/
def readDirLoop (NS : Nat) : Nat → Rd → List CEntry → Bool × List CEntry × Rd
  | 0, s, dir => (true, dir, s)
  | k + 1, s, dir =>
    let q := readSlot NS s
    let nameRaw := q.1
    let size := q.2.1
    let offset := q.2.2.1
    let s' := q.2.2.2
    if (offset + size) % M32 > s.buf.length then
      (false, dir, s')
    else
      let e : CEntry :=
        { name := takeUntilZero (nameRaw.drop 1), size := size, data := [],
          loaded := false, state := EState.Unmodified, offsetProp := offset,
          etype := "" }
      readDirLoop NS k s' (dir ++ [e])

/-- Modelled from the spec: MemChunk::exportMemChunk is a cursor
independent range export; an out of range export fails and the
destination chunk stays empty. -/
def exportRange (buf : List Nat) (start n : Nat) : Option (List Nat) :=
  if start + n ≤ buf.length then some ((buf.drop start).take n) else none

/-- fixBrokenWave from the source: for an entry detected as snd_wav of
at least MIN_WAVE_SIZE = 44 bytes, the 32 bit wave format chunk size at
byte offset 16 is patched from the sentinel 18 (0x12) to 16 (0x10). -/
def fixBrokenWave (e : CEntry) : CEntry :=
  if e.etype ≠ "snd_wav" ∨ e.size < 44 then e
  else if rd32 ((e.data.drop 16).take 4) = 18 then
    { e with data := e.data.take 16 ++ le32 16 ++ e.data.drop 20 }
  else e

/-- The second pass of open over one entry: import the payload from the
recorded offset if the size is nonzero (a failed export leaves the
entry untouched), run type detection, apply the wave fixup, drop the
payload again when the load data policy is off, and mark the entry
unmodified. -/
def processEntry (loadData : Bool) (detect : List Nat → String)
    (buf : List Nat) (e : CEntry) : CEntry :=
  let e1 :=
    if e.size > 0 then
      match exportRange buf e.offsetProp e.size with
      | some bs => { e with data := bs, size := bs.length, loaded := true }
      | none => e
    else e
  let e2 := { e1 with etype := detect e1.data }
  let e3 := fixBrokenWave e2
  let e4 := if loadData then e3 else { e3 with data := [], loaded := false }
  { e4 with state := EState.Unmodified }

/-- The result of ChasmBinArchive::open: the boolean outcome, the
archive state afterwards, and the value written into the process wide
last error slot during the call (none when the call did not touch it). -/
structure OpenOut where
  ok : Bool
  arch : Arch
  errSet : Option String
  deriving DecidableEq

/-- ChasmBinArchive::open.  The buffer cursor starts at zero.  Steps of
the source: reject buffers shorter than HEADER_SIZE (without touching
the error slot); read and check the 4 magic bytes, on mismatch set the
error slot and abort with the archive untouched; mute announcements;
read the 16 bit entry count; run the directory loop, and on a bounds
violation set the error slot, unmute and abort keeping the entries
appended so far; otherwise run the second pass over the flattened entry
list, unmute, clear the modified flag and succeed.  The entry type
detector and the archive_load_data policy are external collaborators,
passed as parameters. -/
def openArchive (NS : Nat) (loadData : Bool) (detect : List Nat → String)
    (buf : List Nat) (a : Arch) : OpenOut :=
  if buf.length < HEADER_SIZE then
    { ok := false, arch := a, errSet := none }
  else
    let s0 : Rd := ⟨buf, 0⟩
    let p1 := rdBytes 4 s0
    let magic := p1.1.getD [0, 0, 0, 0]
    if magic ≠ magicBytes then
      { ok := false, arch := a, errSet := some ("Invalid Chasm bin header") }
    else
      let a1 : Arch := { a with muted := true }
      let p2 := rdBytes 2 p1.2
      let count := rd16 (p2.1.getD [0, 0])
      let r := readDirLoop NS count p2.2 a1.dir
      if r.1 = false then
        { ok := false,
          arch := { a1 with dir := r.2.1, muted := false },
          errSet := some ("Archive is invalid and/or corrupt") }
      else
        let dir2 := r.2.1.map (processEntry loadData detect buf)
        { ok := true,
          arch := { dir := dir2, modified := false, muted := false },
          errSet := none }

/-- ChasmBinArchive::isChasmBinArchive on a memory buffer: reject
buffers shorter than HEADER_SIZE, check the magic, read the declared 16
bit entry count, and accept when the count exceeds MAX or the buffer is
at least large enough for the maximal directory table. -/
def isChasmBinArchive (NS MAX : Nat) (buf : List Nat) : Bool :=
  if buf.length < HEADER_SIZE then false
  else
    let s0 : Rd := ⟨buf, 0⟩
    let p1 := rdBytes 4 s0
    let magic := p1.1.getD [0, 0, 0, 0]
    if magic ≠ magicBytes then false
    else
      let p2 := rdBytes 2 p1.2
      let count := rd16 (p2.1.getD [0, 0])
      decide (count > MAX ∨ headerTocSize NS MAX ≤ buf.length)

/-- Modelled from the spec: positional write into a ByteBuffer at a
cursor, overwriting in place and growing the buffer when the write runs
past the current end (MemChunk::write). -/
def bufWrite (out : List Nat) (pos : Nat) (bs : List Nat) : List Nat :=
  out.take pos ++ bs ++ out.drop (pos + bs.length)

/-- Modelled from the spec: MemChunk::reSize with data preservation:
truncate to n bytes, or extend with zero bytes. -/
def resizeTo (out : List Nat) (n : Nat) : List Nat :=
  out.take n ++ List.replicate (n - out.length) 0

/-- The NAME_SIZE byte Pascal style name field emitted by write for one
entry name, together with the warning flag.  The source casts the name
length to uint8 (the modulus 256); a name whose cast length exceeds
NAME_SIZE - 1 is truncated in place to NAME_SIZE - 1 characters with a
warning, and the length prefix is NAME_SIZE - 1 cast to uint8.  The
remainder of the char array stays zero filled. -/
def nameData (NS : Nat) (name : List Nat) : List Nat × Bool :=
  let nl := name.length % 256
  if nl > NS - 1 then
    let tname := name.take (NS - 1)
    let nl2 := (NS - 1) % 256
    (nl2 :: (tname.take nl2 ++ List.replicate (NS - 1 - (tname.take nl2).length) 0), true)
  else
    (nl :: (name.take nl ++ List.replicate (NS - 1 - (name.take nl).length) 0), false)

/-- The directory writing loop of write: for each entry, optionally
mark it unmodified and store the running offset into its Offset
property, emit the name field, the 32 bit size and the 32 bit running
offset at the buffer cursor, and advance the offset by the entry size
in uint32 arithmetic.  Returns the buffer, the final offset, the
mutated entry list and the warned names. -/
def writeDirLoop (NS : Nat) (update : Bool) :
    List CEntry → Nat → Nat → List Nat → List (List Nat) →
    List Nat × Nat × List CEntry × List (List Nat)
  | [], offset, _cur, out, ws => (out, offset, [], ws)
  | e :: rest, offset, cur, out, ws =>
    let e' := if update then { e with state := EState.Unmodified, offsetProp := offset } else e
    let nd := nameData NS e.name
    let recBytes := nd.1 ++ le32 e.size ++ le32 offset
    let out' := bufWrite out cur recBytes
    let ws' := if nd.2 then ws ++ [e.name] else ws
    let r := writeDirLoop NS update rest ((offset + e.size) % M32) (cur + recBytes.length) out' ws'
    (r.1, r.2.1, e' :: r.2.2.1, r.2.2.2)

/-- The bytes emitted for one entry payload: write exactly size bytes
from the raw data pointer.  When the stored payload is shorter than the
declared size the source reads past the payload allocation (undefined
behaviour), modelled as zero bytes; no claim exercises that path. -/
def payloadChunk (e : CEntry) : List Nat :=
  e.data.take e.size ++ List.replicate (e.size - e.data.length) 0

/-- The payload writing loop of write: each entry payload is written
back to back at the cursor, in list order. -/
def writeDataLoop : List CEntry → Nat → List Nat → List Nat
  | [], _cur, out => out
  | e :: rest, cur, out => writeDataLoop rest (cur + e.size) (bufWrite out cur (payloadChunk e))

/-- The result of ChasmBinArchive::write: the boolean outcome, the
output buffer, the last error slot value set during the call, the
directory afterwards and the list of names warned about. -/
structure WriteOut where
  ok : Bool
  out : List Nat
  errSet : Option String
  dirAfter : List CEntry
  warned : List (List Nat)
  deriving DecidableEq

/-- ChasmBinArchive::write.  Steps of the source: clear the output
buffer; flatten the directory; cast the entry count to uint16 (the
modulus 65536) and reject when it exceeds MAX, leaving the buffer
cleared; pre size the buffer to header plus full table capacity and
zero fill; write magic and count; run the directory loop over the first
count entries starting the running offset at the table end; resize the
buffer to the final offset; write the payloads back to back after the
table. -/
def write (NS MAX : Nat) (dir : List CEntry) (update : Bool) : WriteOut :=
  let n16 := dir.length % 65536
  if n16 > MAX then
    { ok := false, out := [],
      errSet := some ("Maximum number of entries exceeded for Chasm: The Rift bin archive"),
      dirAfter := dir, warned := [] }
  else
    let htoc := headerTocSize NS MAX
    let out0 := List.replicate htoc 0
    let out1 := bufWrite out0 0 (magicBytes ++ le16 n16)
    let front := dir.take n16
    let r := writeDirLoop NS update front htoc HEADER_SIZE out1 []
    let out3 := resizeTo r.1 r.2.1
    let out4 := writeDataLoop front htoc out3
    { ok := true, out := out4, errSet := none,
      dirAfter := r.2.2.1 ++ dir.drop n16, warned := r.2.2.2 }

/-- The result of ChasmBinArchive::loadEntryData: the boolean outcome,
the entry afterwards, and whether the backing file was touched. -/
structure LoadOut where
  ok : Bool
  entry : CEntry
  fileTouched : Bool
  deriving DecidableEq

/-- ChasmBinArchive::loadEntryData.  checkEntry and the backing wxFile
are not part of the source excerpt and are modelled from the spec:
checkOk is the outcome of the entry validity check, fileOpens whether
the archive file can be opened, and fileBytes the bytes read from it at
a given offset and size.  The source: fail when the check fails; when
the size is zero or the entry is already loaded, mark it loaded and
succeed without touching the file; otherwise open the file (failing if
inaccessible), read size bytes at the stored offset and mark the entry
loaded. -/
def loadEntryData (checkOk fileOpens : Bool) (fileBytes : Nat → Nat → List Nat)
    (e : CEntry) : LoadOut :=
  if checkOk = false then
    { ok := false, entry := e, fileTouched := false }
  else if e.size = 0 ∨ e.loaded = true then
    { ok := true, entry := { e with loaded := true }, fileTouched := false }
  else if fileOpens = false then
    { ok := false, entry := e, fileTouched := true }
  else
    { ok := true,
      entry := { e with data := fileBytes e.offsetProp e.size, loaded := true },
      fileTouched := true }

/-- Sum of the declared entry sizes of a directory. -/
def sizesSum (es : List CEntry) : Nat := (es.map (fun e => e.size)).sum

/-- Closed form of the byte run emitted by the directory writing loop:
the records of the entries, offsets accumulated in uint32 arithmetic
from off. -/
def recordsFrom (NS : Nat) : Nat → List CEntry → List Nat
  | _, [] => []
  | off, e :: rest =>
    (nameData NS e.name).1 ++ le32 e.size ++ le32 off ++
      recordsFrom NS ((off + e.size) % M32) rest

/-- The running offset after the directory writing loop. -/
def offAfter : Nat → List CEntry → Nat
  | off, [] => off
  | off, e :: rest => offAfter ((off + e.size) % M32) rest

/-- Closed form of the entry list mutation performed by write when
updateOffsets is on: each entry marked unmodified with its Offset
property set to the running offset. -/
def updEntries : Nat → List CEntry → List CEntry
  | _, [] => []
  | off, e :: rest =>
    { e with state := EState.Unmodified, offsetProp := off } ::
      updEntries ((off + e.size) % M32) rest

/-- Closed form of the warned name list of write: the names whose
length cast to uint8 exceeds NAME_SIZE - 1. -/
def warnNames (NS : Nat) : List CEntry → List (List Nat)
  | [] => []
  | e :: rest =>
    (if e.name.length % 256 > NS - 1 then [e.name] else []) ++ warnNames NS rest

/-- Closed form of the entries appended by the directory reading loop
of open when every slot passes the bounds check: name, size and stored
offset from the wire, payload not yet loaded. -/
def openedEntries : Nat → List CEntry → List CEntry
  | _, [] => []
  | off, e :: rest =>
    { name := e.name, size := e.size, data := [], loaded := false,
      state := EState.Unmodified, offsetProp := off, etype := "" } ::
      openedEntries ((off + e.size) % M32) rest

/-- Closed form of the directory produced by a round trip through write
and open with the load data policy on: original name, size and payload,
the stored offset being the running offset, the type coming from the
detector, and the loaded flag set exactly for nonempty payloads. -/
def restoredEntries (detect : List Nat → String) : Nat → List CEntry → List CEntry
  | _, [] => []
  | off, e :: rest =>
    { name := e.name, size := e.size, data := e.data, loaded := decide (0 < e.size),
      state := EState.Unmodified, offsetProp := off, etype := detect e.data } ::
      restoredEntries detect ((off + e.size) % M32) rest

/-! Concrete instances used by counterexamples and failing input
evaluations. -/

/-- A one byte entry name consisting of a single zero byte: at most
NAME_SIZE - 1 bytes long, yet not recoverable by the Pascal to C string
conversion of open. -/
def c1ceEntry : CEntry :=
  { name := [0], size := 0, data := [], loaded := true, state := EState.New,
    offsetProp := 0, etype := "" }

/-- A buffer with a valid header, two directory slots, the first slot
valid (name A, size 0, offset 0) and the second slot declaring offset
100 and size 100, far past the end of the 54 byte buffer. -/
def c2ceBuf : List Nat :=
  magicBytes ++ le16 2 ++ ([1, 65] ++ List.replicate 14 0) ++ le32 0 ++ le32 0 ++
    List.replicate 16 0 ++ le32 100 ++ le32 100

/-- A buffer with a valid header and one directory slot declaring size
2 and offset 4294967295: the mathematical sum 4294967297 wraps to 1 in
uint32 arithmetic, defeating the bounds check. -/
def c3Buf : List Nat :=
  magicBytes ++ le16 1 ++ List.replicate 16 0 ++ le32 2 ++ le32 4294967295

/-- A directory of 65536 one byte entries: its length cast to uint16 is
zero, defeating the entry count check of write. -/
def c4Dir : List CEntry :=
  List.replicate 65536
    { name := [66], size := 1, data := [66], loaded := true, state := EState.New,
      offsetProp := 0, etype := "" }

/-- A directory of 65536 entries with one byte payloads, used to refute
the output length formula at an entry count that the uint16 cast
collapses to zero. -/
def c6ceDir : List CEntry :=
  List.replicate 65536
    { name := [], size := 1, data := [65], loaded := true, state := EState.New,
      offsetProp := 0, etype := "" }

/-- A zero size unloaded entry used by the loadEntryData witness. -/
def c9wEntry : CEntry :=
  { name := [65], size := 0, data := [], loaded := false,
    state := EState.Unmodified, offsetProp := 0, etype := "" }

/-- An entry with a 256 byte name: its length cast to uint8 is zero, so
the name length check of write does not fire. -/
def c7ceEntry : CEntry :=
  { name := List.replicate 256 65, size := 0, data := [], loaded := true,
    state := EState.New, offsetProp := 0, etype := "" }

/-- The declared 32 bit size of the directory slot at byte position
pos of a buffer (the 4 bytes after the NAME_SIZE name field). -/
def slotSize (NS : Nat) (buf : List Nat) (pos : Nat) : Nat :=
  rd32 ((buf.drop (pos + NS)).take 4)

/-- The declared 32 bit offset of the directory slot at byte position
pos of a buffer (the 4 bytes after the name field and size). -/
def slotOffset (NS : Nat) (buf : List Nat) (pos : Nat) : Nat :=
  rd32 ((buf.drop (pos + NS + 4)).take 4)

/-- A single entry directory used by the round trip witness. -/
def c1wEntry : CEntry :=
  { name := [65], size := 2, data := [66, 67], loaded := true,
    state := EState.New, offsetProp := 0, etype := "" }

/-- A single entry directory used by the write layout witness. -/
def c6wEntry : CEntry :=
  { name := [65], size := 3, data := [7, 8, 9], loaded := true,
    state := EState.New, offsetProp := 0, etype := "" }

/-- An entry with a 20 byte name, used by the truncation witness. -/
def c7wEntry : CEntry :=
  { name := List.replicate 20 66, size := 1, data := [5], loaded := true,
    state := EState.New, offsetProp := 0, etype := "" }

/-- The outcome of open once the header has been validated: the
directory loop runs at cursor HEADER_SIZE on the declared entry count;
a loop failure aborts with the corrupt archive error keeping the
entries appended so far, a loop success runs the second pass over the
whole directory.  Used to state the header ok unfolding of open. -/
def openParsedResult (NS : Nat) (ld : Bool) (detect : List Nat → String)
    (buf : List Nat) (a : Arch) : OpenOut :=
  let r := readDirLoop NS (rd16 ((buf.drop 4).take 2)) ⟨buf, HEADER_SIZE⟩ a.dir
  if r.1 = false then
    { ok := false,
      arch := { dir := r.2.1, modified := a.modified, muted := false },
      errSet := some ("Archive is invalid and/or corrupt") }
  else
    { ok := true,
      arch := { dir := r.2.1.map (processEntry ld detect buf),
                modified := false, muted := false },
      errSet := none }

/-- A pre-populated archive (one entry, modified flag set) used to
witness that a failed open keeps the pre-open directory. -/
def c2wArch : Arch :=
  { dir := [{ name := [80], size := 0, data := [], loaded := false,
              state := EState.Unmodified, offsetProp := 0, etype := "" }],
    modified := true, muted := false }

/-! Basic lemmas about the byte level helpers. -/

theorem rd16_le16 {n : Nat} (h : n < 65536) : rd16 (le16 n) = n := by
  simp [rd16, le16]
  omega

theorem rd32_le32 {n : Nat} (h : n < M32) : rd32 (le32 n) = n := by
  simp [rd32, le32, M32] at h ⊢
  omega

theorem le16_length (n : Nat) : (le16 n).length = 2 := rfl

theorem le32_length (n : Nat) : (le32 n).length = 4 := rfl

theorem payloadChunk_length (e : CEntry) : (payloadChunk e).length = e.size := by
  simp [payloadChunk]
  omega

theorem resizeTo_length (out : List Nat) (n : Nat) : (resizeTo out n).length = n := by
  simp [resizeTo]
  omega

theorem bufWrite_length {out bs : List Nat} {pos : Nat}
    (h : pos + bs.length ≤ out.length) : (bufWrite out pos bs).length = out.length := by
  simp [bufWrite]
  omega

theorem nameData_fst_length {NS : Nat} (h : 1 ≤ NS) (nm : List Nat) :
    ((nameData NS nm).1).length = NS := by
  simp only [nameData]
  split_ifs with hc
  · simp
    omega
  · simp at hc ⊢
    omega

theorem takeUntilZero_append_zeros {nm : List Nat} (h : ¬ 0 ∈ nm) (k : Nat) :
    takeUntilZero (nm ++ List.replicate k 0) = nm := by
  induction nm with
  | nil => cases k <;> simp [takeUntilZero, List.replicate_succ]
  | cons b rest ih =>
    simp at h
    have hb : ¬ b = 0 := fun hb0 => h.1 hb0.symm
    simp [takeUntilZero, hb, ih h.2]

/-! C5, C8, C9 and the concrete refutations. -/

/-- C5: isChasmBinArchive accepts a buffer exactly when it is at least
HEADER_SIZE bytes long, starts with the magic CSid, and either the
declared 16 bit entry count exceeds MAX_ENTRY_COUNT or the buffer is at
least HEADER_SIZE + MAX_ENTRY_COUNT * ENTRY_SIZE bytes long; an
oversized declared count is thus a positive match. -/
theorem c5_sniff_iff (NS MAX : Nat) (buf : List Nat) :
    isChasmBinArchive NS MAX buf = true ↔
      HEADER_SIZE ≤ buf.length ∧ buf.take 4 = magicBytes ∧
        (MAX < rd16 ((buf.drop 4).take 2) ∨ headerTocSize NS MAX ≤ buf.length) := by
  unfold isChasmBinArchive rdBytes
  by_cases h1 : buf.length < HEADER_SIZE
  · rw [if_pos h1]
    simp only [Bool.false_eq_true, false_iff]
    intro hcon
    exact absurd hcon.1 (by omega)
  · have h4 : (0 : Nat) + 4 ≤ buf.length := by
      unfold HEADER_SIZE at h1
      omega
    have h6 : 4 + 2 ≤ buf.length := by
      unfold HEADER_SIZE at h1
      omega
    simp only [if_neg h1, if_pos h4, if_pos h6, Option.getD_some, List.drop_zero]
    by_cases hm : buf.take 4 = magicBytes
    · have hlen : HEADER_SIZE ≤ buf.length := by omega
      simp [hm, hlen]
    · simp [hm]

/-- C8: open fails on every buffer shorter than HEADER_SIZE (leaving
the archive and the last error slot untouched) and on every buffer
whose first four bytes differ from CSid (setting the last error slot),
in both cases leaving the archive state unchanged: no entries added,
modified and muted flags untouched.  Reads are bounds checked by
construction in the reader model. -/
theorem c8_open_rejects (NS : Nat) (ld : Bool) (det : List Nat → String)
    (buf : List Nat) (a : Arch) :
    (buf.length < HEADER_SIZE →
      openArchive NS ld det buf a = { ok := false, arch := a, errSet := none }) ∧
    (HEADER_SIZE ≤ buf.length → buf.take 4 ≠ magicBytes →
      openArchive NS ld det buf a =
        { ok := false, arch := a, errSet := some ("Invalid Chasm bin header") }) := by
  constructor
  · intro h
    simp [openArchive, h]
  · intro h hm
    have h1 : ¬ buf.length < HEADER_SIZE := by omega
    have h4 : (0 : Nat) + 4 ≤ buf.length := by
      unfold HEADER_SIZE at h
      omega
    simp [openArchive, h1, rdBytes, h4, hm]

/-- C8 witness: the two rejection branches at concrete buffers, an
empty buffer and a six byte buffer with a wrong magic. -/
theorem c8_open_rejects_witness :
    (openArchive 16 true (fun _ => "") [] ⟨[], false, false⟩ =
      { ok := false, arch := ⟨[], false, false⟩, errSet := none }) ∧
    (openArchive 16 true (fun _ => "") [1, 2, 3, 4, 5, 6] ⟨[], true, false⟩ =
      { ok := false, arch := ⟨[], true, false⟩,
        errSet := some ("Invalid Chasm bin header") }) :=
  ⟨(c8_open_rejects 16 true (fun _ => "") [] ⟨[], false, false⟩).1 (by decide),
   (c8_open_rejects 16 true (fun _ => "") [1, 2, 3, 4, 5, 6] ⟨[], true, false⟩).2
     (by decide) (by decide)⟩

/-- C9: loadEntryData on a valid entry whose size is zero or which is
already loaded succeeds, marks the entry loaded and does not touch the
backing file; and after any successful call the entry is loaded, so a
repeated call is a file untouching no-op that also succeeds. -/
theorem c9_load_fast_path (fo fo2 : Bool) (fb fb2 : Nat → Nat → List Nat)
    (e : CEntry) (h : e.size = 0 ∨ e.loaded = true) :
    (loadEntryData true fo fb e =
        { ok := true, entry := { e with loaded := true }, fileTouched := false }) ∧
    (∀ e' : CEntry, (loadEntryData true fo fb e').ok = true →
      loadEntryData true fo2 fb2 (loadEntryData true fo fb e').entry =
        { ok := true, entry := (loadEntryData true fo fb e').entry,
          fileTouched := false }) := by
  constructor
  · simp [loadEntryData, h]
  · intro e' hok
    unfold loadEntryData at hok ⊢
    split_ifs at hok ⊢ <;> simp_all

/-- C9 witness: a zero size unloaded entry, loaded twice. -/
theorem c9_load_fast_path_witness :
    (loadEntryData true false (fun _ _ => []) c9wEntry =
        { ok := true, entry := { c9wEntry with loaded := true },
          fileTouched := false }) ∧
    loadEntryData true false (fun _ _ => [])
        (loadEntryData true false (fun _ _ => []) c9wEntry).entry =
      { ok := true, entry := (loadEntryData true false (fun _ _ => []) c9wEntry).entry,
        fileTouched := false } :=
  ⟨(c9_load_fast_path false false (fun _ _ => []) (fun _ _ => []) c9wEntry
      (by decide)).1,
   (c9_load_fast_path false false (fun _ _ => []) (fun _ _ => []) c9wEntry
      (by decide)).2 c9wEntry (by decide)⟩

set_option maxRecDepth 100000 in
/-- C1 counterexample: a directory consisting of one entry whose name
is the single byte zero (well within the NAME_SIZE - 1 and
MAX_ENTRY_COUNT limits of the claim, here NS = 16 and MAX = 4): write
followed by open succeeds but recovers the empty name, because the
Pascal to C string conversion of open stops at the first zero byte, so
the directories differ in their names. -/
theorem c1_counterexample :
    c1ceEntry.name.length ≤ 16 - 1 ∧ ([c1ceEntry] : List CEntry).length ≤ 4 ∧
    (write 16 4 [c1ceEntry] true).ok = true ∧
    (openArchive 16 true (fun _ => "") (write 16 4 [c1ceEntry] true).out
      ⟨[], false, false⟩).ok = true ∧
    (openArchive 16 true (fun _ => "") (write 16 4 [c1ceEntry] true).out
        ⟨[], false, false⟩).arch.dir.map (fun e => e.name) ≠
      [c1ceEntry].map (fun e => e.name) := by
  decide

set_option maxRecDepth 100000 in
/-- C2 counterexample: on a 54 byte buffer whose second directory slot
declares offset 100 and size 100, open fails, but the entry parsed from
the first, valid slot is retained in the directory, which therefore
does not end up empty. -/
theorem c2_counterexample :
    (openArchive 16 true (fun _ => "") c2ceBuf ⟨[], false, false⟩).ok = false ∧
    (openArchive 16 true (fun _ => "") c2ceBuf ⟨[], false, false⟩).arch.dir ≠ [] := by
  decide

set_option maxRecDepth 100000 in
/-- C3: the bounds comparison of open is performed in wrapping uint32
arithmetic, not over exact integers: on a 30 byte buffer whose only
slot declares offset 4294967295 and size 2 (mathematical sum
4294967297, far past the end), the sum wraps to 1, the check passes and
open succeeds. -/
theorem c3_overflow_accepted :
    rd32 ((c3Buf.drop 26).take 4) = 4294967295 ∧
    rd32 ((c3Buf.drop 22).take 4) = 2 ∧
    4294967295 + 2 > c3Buf.length ∧
    (openArchive 16 true (fun _ => "") c3Buf ⟨[], false, false⟩).ok = true := by
  decide

/-- Behaviour of write when the entry count cast to uint16 is zero:
the limit check passes vacuously, no records and no payload bytes are
emitted, and the output is exactly the zero filled header plus table
region with the header bytes at the front. -/
theorem write_zero_count16 (NS MAX : Nat) (dir : List CEntry) (u : Bool)
    (h : dir.length % 65536 = 0) :
    (write NS MAX dir u).ok = true ∧
    (write NS MAX dir u).out.length = headerTocSize NS MAX := by
  unfold write
  rw [h]
  rw [if_neg (by exact fun hx => Nat.not_lt_zero MAX hx)]
  simp only [List.take_zero, writeDirLoop, writeDataLoop]
  exact ⟨by trivial, resizeTo_length _ _⟩

/-- C4: write casts the entry count to uint16 before comparing it with
MAX_ENTRY_COUNT, so a directory of 65536 entries (count cast to zero)
is not rejected: write succeeds and emits a full header plus table,
contrary to the claim that it fails and leaves the buffer empty. -/
theorem c4_count_truncation :
    2048 < c4Dir.length ∧ (write 16 2048 c4Dir true).ok = true ∧
    (write 16 2048 c4Dir true).out.length = headerTocSize 16 2048 ∧
    0 < headerTocSize 16 2048 := by
  have hlen : c4Dir.length = 65536 := by
    simp only [c4Dir, List.length_replicate]
  have h := write_zero_count16 16 2048 c4Dir true (by rw [hlen])
  exact ⟨by omega, h.1, h.2, by norm_num [headerTocSize, HEADER_SIZE, ENTRY_SIZE]⟩

/-- C6 counterexample: for a directory of 65536 entries with one byte
payloads, write succeeds (the uint16 cast collapses the count to zero)
but the output length is the bare header plus table size, not header
plus table plus the sum of the entry sizes. -/
theorem c6_counterexample :
    (write 16 2048 c6ceDir true).ok = true ∧
    (write 16 2048 c6ceDir true).out.length ≠
      headerTocSize 16 2048 + sizesSum c6ceDir := by
  have hlen : c6ceDir.length = 65536 := by
    simp only [c6ceDir, List.length_replicate]
  have hsum : sizesSum c6ceDir = 65536 := by
    simp only [sizesSum, c6ceDir, List.map_replicate, List.sum_replicate,
      smul_eq_mul, mul_one]
  have h := write_zero_count16 16 2048 c6ceDir true (by rw [hlen])
  refine ⟨h.1, ?_⟩
  rw [h.2, hsum]
  omega

set_option maxRecDepth 100000 in
/-- C7 counterexample: an entry with a 256 byte name (longer than
NAME_SIZE - 1 = 15): the length cast to uint8 is zero, so the
truncation branch does not fire; the emitted record carries length
prefix 0 and no name bytes instead of the claimed prefix 15 with 15
name bytes, and no warning is recorded, although write still succeeds. -/
theorem c7_counterexample :
    16 - 1 < c7ceEntry.name.length ∧
    (write 16 2 [c7ceEntry] true).ok = true ∧
    ((write 16 2 [c7ceEntry] true).out.drop HEADER_SIZE).take 16 ≠
      (16 - 1) :: c7ceEntry.name.take (16 - 1) ∧
    (write 16 2 [c7ceEntry] true).warned = [] := by
  decide

/-! Independence of the emitted bytes from the update flag and the
stored Offset properties (C10). -/

theorem writeDirLoop_flag_indep (NS : Nat) (u1 u2 : Bool) (es : List CEntry) :
    ∀ (off cur : Nat) (out : List Nat) (ws : List (List Nat)),
      (writeDirLoop NS u1 es off cur out ws).1 = (writeDirLoop NS u2 es off cur out ws).1 ∧
      (writeDirLoop NS u1 es off cur out ws).2.1 = (writeDirLoop NS u2 es off cur out ws).2.1 ∧
      (writeDirLoop NS u1 es off cur out ws).2.2.2 = (writeDirLoop NS u2 es off cur out ws).2.2.2 := by
  induction es with
  | nil => exact fun off cur out ws => ⟨rfl, rfl, rfl⟩
  | cons e rest ih =>
    intro off cur out ws
    simp only [writeDirLoop]
    exact ih _ _ _ _

theorem writeDirLoop_offsetProp_indep (NS : Nat) (u : Bool) (g : Nat → Nat)
    (es : List CEntry) :
    ∀ (off cur : Nat) (out : List Nat) (ws : List (List Nat)),
      (writeDirLoop NS u (es.map (fun e => { e with offsetProp := g e.offsetProp }))
          off cur out ws).1 = (writeDirLoop NS u es off cur out ws).1 ∧
      (writeDirLoop NS u (es.map (fun e => { e with offsetProp := g e.offsetProp }))
          off cur out ws).2.1 = (writeDirLoop NS u es off cur out ws).2.1 := by
  induction es with
  | nil => exact fun off cur out ws => ⟨rfl, rfl⟩
  | cons e rest ih =>
    intro off cur out ws
    simp only [List.map_cons, writeDirLoop]
    exact ih _ _ _ _

theorem writeDataLoop_offsetProp_indep (g : Nat → Nat) (es : List CEntry) :
    ∀ (cur : Nat) (out : List Nat),
      writeDataLoop (es.map (fun e => { e with offsetProp := g e.offsetProp })) cur out =
        writeDataLoop es cur out := by
  induction es with
  | nil => exact fun cur out => rfl
  | cons e rest ih =>
    intro cur out
    simp only [List.map_cons, writeDataLoop]
    exact ih _ _

/-- C10: the bytes produced by write do not depend on the updateOffsets
flag, and do not depend on the stored Offset properties of the entries
either: the offset fields emitted into the records are always the
recomputed running payload cursor, and the payloads are always laid out
sequentially after the table; the flag only controls the entry state
and Offset property updates. -/
theorem c10_output_independent (NS MAX : Nat) (dir : List CEntry) (u : Bool)
    (g : Nat → Nat) :
    ((write NS MAX dir true).out = (write NS MAX dir false).out ∧
      (write NS MAX dir true).ok = (write NS MAX dir false).ok) ∧
    (write NS MAX (dir.map (fun e => { e with offsetProp := g e.offsetProp })) u).out
      = (write NS MAX dir u).out := by
  constructor
  · by_cases hc : dir.length % 65536 > MAX
    · simp [write, hc]
    · have h := writeDirLoop_flag_indep NS true false (dir.take (dir.length % 65536))
          (headerTocSize NS MAX) HEADER_SIZE
          (bufWrite (List.replicate (headerTocSize NS MAX) 0) 0
            (magicBytes ++ le16 (dir.length % 65536))) []
      simp only [write, if_neg hc]
      exact ⟨by rw [h.1, h.2.1], by trivial⟩
  · have hmaplen : (dir.map (fun e => { e with offsetProp := g e.offsetProp })).length
        = dir.length := by simp
    by_cases hc : dir.length % 65536 > MAX
    · simp [write, hc, hmaplen]
    · have hctake : (dir.map (fun e => { e with offsetProp := g e.offsetProp })).take
          (dir.length % 65536)
          = (dir.take (dir.length % 65536)).map
              (fun e => { e with offsetProp := g e.offsetProp }) := by
        rw [← List.map_take]
      have h1 := writeDirLoop_offsetProp_indep NS u g (dir.take (dir.length % 65536))
          (headerTocSize NS MAX) HEADER_SIZE
          (bufWrite (List.replicate (headerTocSize NS MAX) 0) 0
            (magicBytes ++ le16 (dir.length % 65536))) []
      have h2 := writeDataLoop_offsetProp_indep g (dir.take (dir.length % 65536))
      simp only [write, hmaplen, if_neg hc, hctake]
      rw [h1.1, h1.2, h2]

/-! Normal form of write: lengths and loop characterizations. -/

theorem recordsFrom_length (NS : Nat) (hNS : 1 ≤ NS) :
    ∀ (off : Nat) (es : List CEntry),
      (recordsFrom NS off es).length = (NS + 8) * es.length := by
  intro off es
  induction es generalizing off with
  | nil => simp [recordsFrom]
  | cons e rest ih =>
    simp [recordsFrom, nameData_fst_length hNS, le32_length, ih, List.length_cons,
      Nat.mul_succ]
    omega

theorem offAfter_eq {off : Nat} {es : List CEntry} (h : off + sizesSum es < M32) :
    offAfter off es = off + sizesSum es := by
  induction es generalizing off with
  | nil => simp [offAfter, sizesSum]
  | cons e rest ih =>
    have hs : sizesSum (e :: rest) = e.size + sizesSum rest := by
      simp [sizesSum]
    rw [hs] at h
    have hm : (off + e.size) % M32 = off + e.size :=
      Nat.mod_eq_of_lt (by omega)
    simp only [offAfter, hm]
    rw [ih (by omega), hs]
    omega

theorem payloadFlatten_length (es : List CEntry) :
    ((es.map payloadChunk).flatten).length = sizesSum es := by
  induction es with
  | nil => simp [sizesSum]
  | cons e rest ih =>
    simp only [List.map_cons, List.flatten_cons, List.length_append,
      payloadChunk_length, ih]
    simp [sizesSum]

theorem payloadChunk_eq_data {e : CEntry} (h : e.data.length = e.size) :
    payloadChunk e = e.data := by
  simp [payloadChunk, ← h, List.take_of_length_le]

theorem bufWrite_take_prefix (out bs : List Nat) (pos : Nat) (hpos : pos ≤ out.length) :
    (bufWrite out pos bs).take (pos + bs.length) = out.take pos ++ bs := by
  unfold bufWrite
  exact List.take_left' (by simp; omega)

theorem bufWrite_drop_from (out bs : List Nat) (pos k : Nat) (hpos : pos ≤ out.length) :
    (bufWrite out pos bs).drop (pos + bs.length + k) = out.drop (pos + bs.length + k) := by
  unfold bufWrite
  have h1 : (out.take pos ++ bs).length = pos + bs.length := by
    simp
    omega
  have h2 : pos + bs.length + k = (out.take pos ++ bs).length + k := by rw [h1]
  rw [h2, List.drop_append, List.drop_drop, h1]

theorem writeDataLoop_spec :
    ∀ (es : List CEntry) (cur : Nat) (out : List Nat),
      cur + sizesSum es ≤ out.length →
      writeDataLoop es cur out =
        out.take cur ++ (es.map payloadChunk).flatten ++ out.drop (cur + sizesSum es) := by
  intro es
  induction es with
  | nil =>
    intro cur out _h
    simp [writeDataLoop, sizesSum, List.take_append_drop]
  | cons e rest ih =>
    intro cur out hb
    have hs : sizesSum (e :: rest) = e.size + sizesSum rest := by simp [sizesSum]
    rw [hs] at hb
    have hcur : cur + e.size ≤ out.length := by omega
    have hol : (bufWrite out cur (payloadChunk e)).length = out.length :=
      bufWrite_length (by rw [payloadChunk_length]; omega)
    have htk : cur ≤ out.length := by omega
    simp only [writeDataLoop]
    rw [ih (cur + e.size) _ (by rw [hol]; omega)]
    have hfront : (bufWrite out cur (payloadChunk e)).take (cur + e.size)
        = out.take cur ++ payloadChunk e := by
      have h0 := bufWrite_take_prefix out (payloadChunk e) cur htk
      rw [payloadChunk_length] at h0
      exact h0
    have hback : (bufWrite out cur (payloadChunk e)).drop (cur + e.size + sizesSum rest)
        = out.drop (cur + e.size + sizesSum rest) := by
      have h0 := bufWrite_drop_from out (payloadChunk e) cur (sizesSum rest) htk
      rw [payloadChunk_length] at h0
      exact h0
    rw [hfront, hback, hs]
    simp only [List.map_cons, List.flatten_cons, List.append_assoc]
    rw [show cur + (e.size + sizesSum rest) = cur + e.size + sizesSum rest by omega]

theorem nameData_snd (NS : Nat) (nm : List Nat) :
    (nameData NS nm).2 = decide (nm.length % 256 > NS - 1) := by
  simp only [nameData]
  split_ifs with h <;> simp [h]

theorem writeDirLoop_spec (NS : Nat) (u : Bool) (hNS : 1 ≤ NS) :
    ∀ (es : List CEntry) (off cur : Nat) (out : List Nat) (ws : List (List Nat)),
      cur + (NS + 8) * es.length ≤ out.length →
      (writeDirLoop NS u es off cur out ws).1 =
          out.take cur ++ recordsFrom NS off es ++
            out.drop (cur + (NS + 8) * es.length) ∧
      (writeDirLoop NS u es off cur out ws).2.1 = offAfter off es ∧
      (writeDirLoop NS u es off cur out ws).2.2.1 =
          (if u then updEntries off es else es) ∧
      (writeDirLoop NS u es off cur out ws).2.2.2 = ws ++ warnNames NS es := by
  intro es
  induction es with
  | nil =>
    intro off cur out ws _h
    refine ⟨?_, rfl, ?_, ?_⟩
    · simp [writeDirLoop, recordsFrom, List.take_append_drop]
    · cases u <;> simp [writeDirLoop, updEntries]
    · simp [writeDirLoop, warnNames]
  | cons e rest ih =>
    intro off cur out ws hb
    have hmul : (NS + 8) * (e :: rest).length = (NS + 8) * rest.length + (NS + 8) := by
      simp [List.length_cons, Nat.mul_succ]
    rw [hmul] at hb
    have hstep : cur + (NS + 8) ≤ out.length := by omega
    have htk : cur ≤ out.length := by omega
    have hrecl : ((nameData NS e.name).1 ++ le32 e.size ++ le32 off).length = NS + 8 := by
      simp [le32_length, nameData_fst_length hNS]
    have hout' : (bufWrite out cur
        ((nameData NS e.name).1 ++ le32 e.size ++ le32 off)).length = out.length :=
      bufWrite_length (by rw [hrecl]; exact hstep)
    have ihh := ih ((off + e.size) % M32) (cur + (NS + 8))
      (bufWrite out cur ((nameData NS e.name).1 ++ le32 e.size ++ le32 off))
      (if (nameData NS e.name).2 then ws ++ [e.name] else ws)
      (by rw [hout']; omega)
    have hfront := bufWrite_take_prefix out
      ((nameData NS e.name).1 ++ le32 e.size ++ le32 off) cur htk
    rw [hrecl] at hfront
    have hback := bufWrite_drop_from out
      ((nameData NS e.name).1 ++ le32 e.size ++ le32 off) cur
      ((NS + 8) * rest.length) htk
    rw [hrecl] at hback
    simp only [writeDirLoop, hrecl]
    refine ⟨?_, ?_, ?_, ?_⟩
    · rw [ihh.1, hfront, hback]
      simp only [recordsFrom, List.append_assoc]
      rw [show cur + (NS + 8) + (NS + 8) * rest.length
          = cur + (NS + 8) * (e :: rest).length from by rw [hmul]; omega]
    · rw [ihh.2.1]
      rfl
    · rcases u with _ | _
      · simp only [Bool.false_eq_true, if_false]
        rw [ihh.2.2.1]
        simp
      · simp only [if_true]
        rw [ihh.2.2.1]
        simp [updEntries]
    · rw [ihh.2.2.2]
      by_cases hw : e.name.length % 256 > NS - 1
      · simp [nameData_snd, hw, warnNames]
      · simp [nameData_snd, hw, warnNames]

theorem headerTocSize_eq (NS MAX : Nat) :
    headerTocSize NS MAX = 6 + (NS + 8) * MAX := rfl

theorem write_spec (NS MAX : Nat) (dir : List CEntry) (u : Bool)
    (hNS : 1 ≤ NS) (hcount : dir.length ≤ MAX) (hMAX : MAX < 65536)
    (hwrap : headerTocSize NS MAX + sizesSum dir < M32) :
    write NS MAX dir u =
      { ok := true,
        out := magicBytes ++ le16 dir.length ++
          recordsFrom NS (headerTocSize NS MAX) dir ++
          List.replicate ((NS + 8) * (MAX - dir.length)) 0 ++
          (dir.map payloadChunk).flatten,
        errSet := none,
        dirAfter := (if u then updEntries (headerTocSize NS MAX) dir else dir),
        warned := warnNames NS dir } := by
  have hn16 : dir.length % 65536 = dir.length := Nat.mod_eq_of_lt (by omega)
  have hhdr : (magicBytes ++ le16 dir.length).length = HEADER_SIZE := by
    simp [magicBytes, le16, HEADER_SIZE]
  have hdist : (NS + 8) * MAX = (NS + 8) * dir.length + (NS + 8) * (MAX - dir.length) := by
    rw [← Nat.mul_add]
    congr 1
    omega
  have hout1 : bufWrite (List.replicate (headerTocSize NS MAX) 0) 0
      (magicBytes ++ le16 dir.length)
      = (magicBytes ++ le16 dir.length) ++
          List.replicate (headerTocSize NS MAX - HEADER_SIZE) 0 := by
    unfold bufWrite
    rw [List.take_zero, List.drop_replicate, hhdr]
    simp
  have hlen1 : ((magicBytes ++ le16 dir.length) ++
      List.replicate (headerTocSize NS MAX - HEADER_SIZE) 0).length
      = headerTocSize NS MAX := by
    rw [List.length_append, hhdr, List.length_replicate, headerTocSize_eq]
    unfold HEADER_SIZE
    omega
  have hb1 : HEADER_SIZE + (NS + 8) * dir.length ≤
      ((magicBytes ++ le16 dir.length) ++
        List.replicate (headerTocSize NS MAX - HEADER_SIZE) 0).length := by
    rw [hlen1, headerTocSize_eq]
    have := Nat.mul_le_mul_left (NS + 8) hcount
    unfold HEADER_SIZE
    omega
  have wdl := writeDirLoop_spec NS u hNS dir (headerTocSize NS MAX) HEADER_SIZE
    ((magicBytes ++ le16 dir.length) ++
      List.replicate (headerTocSize NS MAX - HEADER_SIZE) 0) [] hb1
  have htake1 : ((magicBytes ++ le16 dir.length) ++
      List.replicate (headerTocSize NS MAX - HEADER_SIZE) 0).take HEADER_SIZE
      = magicBytes ++ le16 dir.length := List.take_left' hhdr
  have hdrop1 : ((magicBytes ++ le16 dir.length) ++
      List.replicate (headerTocSize NS MAX - HEADER_SIZE) 0).drop
        (HEADER_SIZE + (NS + 8) * dir.length)
      = List.replicate ((NS + 8) * (MAX - dir.length)) 0 := by
    rw [show HEADER_SIZE + (NS + 8) * dir.length
        = (magicBytes ++ le16 dir.length).length + (NS + 8) * dir.length from by
          rw [hhdr]]
    rw [List.drop_append, List.drop_replicate]
    congr 1
    rw [headerTocSize_eq]
    unfold HEADER_SIZE
    omega
  have hout2 : (writeDirLoop NS u dir (headerTocSize NS MAX) HEADER_SIZE
      ((magicBytes ++ le16 dir.length) ++
        List.replicate (headerTocSize NS MAX - HEADER_SIZE) 0) []).1
      = magicBytes ++ le16 dir.length ++
          recordsFrom NS (headerTocSize NS MAX) dir ++
          List.replicate ((NS + 8) * (MAX - dir.length)) 0 := by
    rw [wdl.1, htake1, hdrop1]
  have hlen2 : (magicBytes ++ le16 dir.length ++
      recordsFrom NS (headerTocSize NS MAX) dir ++
      List.replicate ((NS + 8) * (MAX - dir.length)) 0).length
      = headerTocSize NS MAX := by
    simp only [List.length_append, List.length_replicate,
      recordsFrom_length NS hNS, headerTocSize_eq]
    simp [magicBytes, le16]
    omega
  have hoff : (writeDirLoop NS u dir (headerTocSize NS MAX) HEADER_SIZE
      ((magicBytes ++ le16 dir.length) ++
        List.replicate (headerTocSize NS MAX - HEADER_SIZE) 0) []).2.1
      = headerTocSize NS MAX + sizesSum dir := by
    rw [wdl.2.1, offAfter_eq hwrap]
  have hout3 : resizeTo (magicBytes ++ le16 dir.length ++
      recordsFrom NS (headerTocSize NS MAX) dir ++
      List.replicate ((NS + 8) * (MAX - dir.length)) 0)
      (headerTocSize NS MAX + sizesSum dir)
      = (magicBytes ++ le16 dir.length ++
          recordsFrom NS (headerTocSize NS MAX) dir ++
          List.replicate ((NS + 8) * (MAX - dir.length)) 0) ++
        List.replicate (sizesSum dir) 0 := by
    unfold resizeTo
    rw [List.take_of_length_le (by rw [hlen2]; omega), hlen2]
    congr 2
    omega
  have hlen3 : ((magicBytes ++ le16 dir.length ++
      recordsFrom NS (headerTocSize NS MAX) dir ++
      List.replicate ((NS + 8) * (MAX - dir.length)) 0) ++
        List.replicate (sizesSum dir) 0).length
      = headerTocSize NS MAX + sizesSum dir := by
    simp only [List.length_append, List.length_replicate]
    simp only [List.length_append, List.length_replicate] at hlen2
    omega
  have wdt := writeDataLoop_spec dir (headerTocSize NS MAX)
    ((magicBytes ++ le16 dir.length ++
      recordsFrom NS (headerTocSize NS MAX) dir ++
      List.replicate ((NS + 8) * (MAX - dir.length)) 0) ++
        List.replicate (sizesSum dir) 0)
    (by rw [hlen3])
  have htake3 : ((magicBytes ++ le16 dir.length ++
      recordsFrom NS (headerTocSize NS MAX) dir ++
      List.replicate ((NS + 8) * (MAX - dir.length)) 0) ++
        List.replicate (sizesSum dir) 0).take (headerTocSize NS MAX)
      = magicBytes ++ le16 dir.length ++
          recordsFrom NS (headerTocSize NS MAX) dir ++
          List.replicate ((NS + 8) * (MAX - dir.length)) 0 :=
    List.take_left' hlen2
  have hdrop3 : ((magicBytes ++ le16 dir.length ++
      recordsFrom NS (headerTocSize NS MAX) dir ++
      List.replicate ((NS + 8) * (MAX - dir.length)) 0) ++
        List.replicate (sizesSum dir) 0).drop
        (headerTocSize NS MAX + sizesSum dir)
      = [] := List.drop_eq_nil_of_le (by rw [hlen3])
  simp only [write, hn16, List.take_length]
  rw [if_neg (by omega : ¬ dir.length > MAX)]
  rw [hout1, hout2, hoff, hout3, wdt, htake3, hdrop3]
  rw [wdl.2.2.1, wdl.2.2.2]
  simp [List.append_assoc, List.drop_length]

theorem headerTable_length (NS MAX : Nat) (dir : List CEntry) (hNS : 1 ≤ NS)
    (hcount : dir.length ≤ MAX) :
    (magicBytes ++ le16 dir.length ++ recordsFrom NS (headerTocSize NS MAX) dir ++
      List.replicate ((NS + 8) * (MAX - dir.length)) 0).length
      = headerTocSize NS MAX := by
  have hdist : (NS + 8) * MAX
      = (NS + 8) * dir.length + (NS + 8) * (MAX - dir.length) := by
    rw [← Nat.mul_add]
    congr 1
    omega
  simp only [List.length_append, List.length_replicate, recordsFrom_length NS hNS,
    headerTocSize_eq]
  simp [magicBytes, le16]
  omega

theorem updEntries_offsets {off : Nat} {es : List CEntry}
    (h : off + sizesSum es < M32) :
    (updEntries off es).map (fun e => e.offsetProp)
      = (List.range es.length).map (fun i => off + sizesSum (es.take i)) := by
  induction es generalizing off with
  | nil => simp [updEntries]
  | cons e rest ih =>
    have hs : sizesSum (e :: rest) = e.size + sizesSum rest := by simp [sizesSum]
    rw [hs] at h
    have hm : (off + e.size) % M32 = off + e.size := Nat.mod_eq_of_lt (by omega)
    simp only [updEntries, List.map_cons, hm]
    rw [ih (by omega)]
    rw [List.length_cons, List.range_succ_eq_map]
    simp only [List.map_cons, List.map_map, List.take_zero]
    congr 1
    apply List.map_eq_map_iff.mpr
    intro i _
    simp only [Function.comp_apply, List.take_succ_cons, sizesSum,
      List.map_cons, List.sum_cons]
    omega

/-- C6 (amended): after a successful write with updateOffsets on, for a
directory of at most MAX_ENTRY_COUNT entries whose stored sizes equal
their payload lengths and whose serialized archive fits in 32 bits, the
output length is header plus table plus the sum of the sizes, the
Offset property assigned to entry i is header plus table plus the sum
of the sizes of the entries before it, and the payload bytes are laid
out back to back immediately after the fixed size table, in list
order. -/
theorem c6_write_layout (NS MAX : Nat) (dir : List CEntry)
    (hNS : 1 ≤ NS) (hcount : dir.length ≤ MAX) (hMAX : MAX < 65536)
    (hdata : ∀ e ∈ dir, e.data.length = e.size)
    (hwrap : headerTocSize NS MAX + sizesSum dir < M32) :
    (write NS MAX dir true).ok = true ∧
    (write NS MAX dir true).out.length = headerTocSize NS MAX + sizesSum dir ∧
    (write NS MAX dir true).dirAfter.map (fun e => e.offsetProp)
      = (List.range dir.length).map
          (fun i => headerTocSize NS MAX + sizesSum (dir.take i)) ∧
    (write NS MAX dir true).out.drop (headerTocSize NS MAX)
      = (dir.map (fun e => e.data)).flatten := by
  rw [write_spec NS MAX dir true hNS hcount hMAX hwrap]
  have hfl : (dir.map payloadChunk).flatten = (dir.map (fun e => e.data)).flatten := by
    congr 1
    apply List.map_eq_map_iff.mpr
    intro e he
    exact payloadChunk_eq_data (hdata e he)
  refine ⟨rfl, ?_, ?_, ?_⟩
  · simp only [List.length_append, payloadFlatten_length]
    simp only [List.length_append] at *
    have h2 := headerTable_length NS MAX dir hNS hcount
    simp only [List.length_append] at h2
    omega
  · rw [if_pos rfl]
    exact updEntries_offsets hwrap
  · rw [List.drop_left' (headerTable_length NS MAX dir hNS hcount), hfl]

theorem nameData_long {NS : Nat} {nm : List Nat} (hNS : NS ≤ 256)
    (hlong : NS - 1 < nm.length) (h255 : nm.length ≤ 255) :
    nameData NS nm = ((NS - 1) :: nm.take (NS - 1), true) := by
  have hl : nm.length % 256 = nm.length := Nat.mod_eq_of_lt (by omega)
  simp only [nameData, hl]
  rw [if_pos hlong]
  have h2 : (NS - 1) % 256 = NS - 1 := Nat.mod_eq_of_lt (by omega)
  rw [h2, List.take_take, Nat.min_self]
  have h3 : (nm.take (NS - 1)).length = NS - 1 := by
    simp [List.length_take]
    omega
  rw [h3, Nat.sub_self, List.replicate_zero, List.append_nil]

theorem recordsFrom_get_name (NS : Nat) (hNS : 1 ≤ NS) :
    ∀ (es : List CEntry) (off i : Nat) (h : i < es.length),
      ((recordsFrom NS off es).drop ((NS + 8) * i)).take NS
        = (nameData NS (es.get ⟨i, h⟩).name).1 := by
  intro es
  induction es with
  | nil =>
    intro off i h
    exact absurd h (by simp)
  | cons e rest ih =>
    intro off i h
    have hl := nameData_fst_length hNS e.name
    cases i with
    | zero =>
      simp only [recordsFrom, Nat.mul_zero, List.drop_zero]
      rw [List.take_append_of_le_length (by simp [hl, le32_length]),
        List.take_append_of_le_length (by simp [hl, le32_length]),
        List.take_append_of_le_length (by rw [hl]),
        List.take_of_length_le (by rw [hl])]
      rfl
    | succ j =>
      simp only [recordsFrom]
      have hrl : (((nameData NS e.name).1 ++ le32 e.size) ++ le32 off).length
          = NS + 8 := by
        simp [hl, le32_length]
      rw [show (NS + 8) * (j + 1)
          = (((nameData NS e.name).1 ++ le32 e.size) ++ le32 off).length
            + (NS + 8) * j from by rw [hrl, Nat.mul_succ]; omega]
      rw [List.drop_append]
      exact ih ((off + e.size) % M32) j (by simpa using h)

theorem warnNames_mem (NS : Nat) :
    ∀ (es : List CEntry) (i : Nat) (h : i < es.length),
      (es.get ⟨i, h⟩).name.length % 256 > NS - 1 →
      (es.get ⟨i, h⟩).name ∈ warnNames NS es := by
  intro es
  induction es with
  | nil =>
    intro i h
    exact absurd h (by simp)
  | cons e rest ih =>
    intro i h hw
    cases i with
    | zero =>
      simp only [List.get] at hw ⊢
      simp [warnNames, hw]
    | succ j =>
      simp only [List.get] at hw ⊢
      simp only [warnNames, List.mem_append]
      right
      exact ih j (by simpa using h) hw

/-- C7 (amended): on write, an entry whose name is longer than
NAME_SIZE - 1 bytes but at most 255 bytes (so that the uint8 cast of
the length is faithful) is not an error: its directory record starts
with the length prefix NAME_SIZE - 1 followed by exactly the first
NAME_SIZE - 1 name bytes, its name is recorded in the warning list, and
the write succeeds. -/
theorem c7_name_truncation (NS MAX : Nat) (dir : List CEntry)
    (hNS : 1 ≤ NS) (hNS256 : NS ≤ 256)
    (hcount : dir.length ≤ MAX) (hMAX : MAX < 65536)
    (h255 : ∀ e ∈ dir, e.name.length ≤ 255)
    (hwrap : headerTocSize NS MAX + sizesSum dir < M32) :
    (write NS MAX dir true).ok = true ∧
    ∀ (i : Nat) (h : i < dir.length), NS - 1 < (dir.get ⟨i, h⟩).name.length →
      ((write NS MAX dir true).out.drop (HEADER_SIZE + (NS + 8) * i)).take NS
          = (NS - 1) :: (dir.get ⟨i, h⟩).name.take (NS - 1) ∧
      (dir.get ⟨i, h⟩).name ∈ (write NS MAX dir true).warned := by
  rw [write_spec NS MAX dir true hNS hcount hMAX hwrap]
  have hhdr : (magicBytes ++ le16 dir.length).length = HEADER_SIZE := by
    simp [magicBytes, le16, HEADER_SIZE]
  refine ⟨rfl, ?_⟩
  intro i h hlong
  have hmem : dir.get ⟨i, h⟩ ∈ dir := List.get_mem dir i h
  constructor
  · have hassoc : magicBytes ++ le16 dir.length ++
        recordsFrom NS (headerTocSize NS MAX) dir ++
        List.replicate ((NS + 8) * (MAX - dir.length)) 0 ++
        (dir.map payloadChunk).flatten
        = (magicBytes ++ le16 dir.length) ++
            (recordsFrom NS (headerTocSize NS MAX) dir ++
              (List.replicate ((NS + 8) * (MAX - dir.length)) 0 ++
                (dir.map payloadChunk).flatten)) := by
      simp [List.append_assoc]
    rw [hassoc]
    rw [show HEADER_SIZE + (NS + 8) * i
        = (magicBytes ++ le16 dir.length).length + (NS + 8) * i from by rw [hhdr]]
    rw [List.drop_append]
    have hreclen : (recordsFrom NS (headerTocSize NS MAX) dir).length
        = (NS + 8) * dir.length := recordsFrom_length NS hNS _ _
    have hile : (NS + 8) * i ≤ (recordsFrom NS (headerTocSize NS MAX) dir).length := by
      rw [hreclen]
      exact Nat.mul_le_mul_left _ (by omega)
    rw [List.drop_append_of_le_length hile]
    have htle : NS ≤ ((recordsFrom NS (headerTocSize NS MAX) dir).drop
        ((NS + 8) * i)).length := by
      rw [List.length_drop, hreclen]
      have h1 : (NS + 8) * (i + 1) ≤ (NS + 8) * dir.length :=
        Nat.mul_le_mul_left _ (by omega)
      rw [Nat.mul_succ] at h1
      omega
    rw [List.take_append_of_le_length htle]
    rw [recordsFrom_get_name NS hNS dir (headerTocSize NS MAX) i h]
    rw [nameData_long hNS256 hlong (h255 _ hmem)]
  · exact warnNames_mem NS dir i h (by
      rw [Nat.mod_eq_of_lt (by have := h255 _ hmem; omega)]
      exact hlong)

/-! The directory reading loop of open: characterizations used by the
abort behaviour (C2) and the round trip (C1). -/

theorem readSlot_of_inBounds (NS : Nat) (buf : List Nat) (cur : Nat)
    (h : cur + (NS + 8) ≤ buf.length) :
    readSlot NS ⟨buf, cur⟩ =
      ((buf.drop cur).take NS, slotSize NS buf cur, slotOffset NS buf cur,
        ⟨buf, cur + NS + 4 + 4⟩) := by
  have h1 : cur + NS ≤ buf.length := by omega
  have h2 : cur + NS + 4 ≤ buf.length := by omega
  have h3 : cur + NS + 4 + 4 ≤ buf.length := by omega
  simp only [readSlot, rdBytes, slotSize, slotOffset, h1, h2, h3, if_pos,
    Option.getD_some]

theorem readDirLoop_extends (NS : Nat) :
    ∀ (c : Nat) (s : Rd) (d : List CEntry),
      ∃ t, (readDirLoop NS c s d).2.1 = d ++ t := by
  intro c
  induction c with
  | zero =>
    intro s d
    exact ⟨[], by simp [readDirLoop]⟩
  | succ k ih =>
    intro s d
    simp only [readDirLoop]
    by_cases hcc : ((readSlot NS s).2.2.1 + (readSlot NS s).2.1) % M32 > s.buf.length
    · rw [if_pos hcc]
      exact ⟨[], by simp⟩
    · rw [if_neg hcc]
      obtain ⟨t, ht⟩ := ih (readSlot NS s).2.2.2
        (d ++ [{ name := takeUntilZero ((readSlot NS s).1.drop 1),
                 size := (readSlot NS s).2.1, data := [], loaded := false,
                 state := EState.Unmodified, offsetProp := (readSlot NS s).2.2.1,
                 etype := "" }])
      refine ⟨{ name := takeUntilZero ((readSlot NS s).1.drop 1),
                 size := (readSlot NS s).2.1, data := [], loaded := false,
                 state := EState.Unmodified, offsetProp := (readSlot NS s).2.2.1,
                 etype := "" } :: t, ?_⟩
      rw [ht, List.append_assoc]
      rfl

theorem readDirLoop_fails_of_badSlot (NS : Nat) (buf : List Nat) :
    ∀ (c cur : Nat) (d : List CEntry) (j : Nat),
      cur + c * (NS + 8) ≤ buf.length →
      j < c →
      (slotOffset NS buf (cur + j * (NS + 8)) +
        slotSize NS buf (cur + j * (NS + 8))) % M32 > buf.length →
      (readDirLoop NS c ⟨buf, cur⟩ d).1 = false := by
  intro c
  induction c with
  | zero =>
    intro cur d j _ hj
    exact absurd hj (by omega)
  | succ k ih =>
    intro cur d j hb hj hbad
    have hmul : (k + 1) * (NS + 8) = k * (NS + 8) + (NS + 8) := Nat.succ_mul _ _
    have hstep : cur + (NS + 8) ≤ buf.length := by
      rw [hmul] at hb
      omega
    have hrs := readSlot_of_inBounds NS buf cur hstep
    simp only [readDirLoop, hrs]
    by_cases h0 : (slotOffset NS buf cur + slotSize NS buf cur) % M32 > buf.length
    · rw [if_pos h0]
    · rw [if_neg h0]
      rcases j with _ | j'
      · simp only [Nat.zero_mul, Nat.add_zero] at hbad
        exact absurd hbad h0
      · have hpos : cur + (j' + 1) * (NS + 8) = (cur + NS + 4 + 4) + j' * (NS + 8) := by
          rw [Nat.succ_mul]
          omega
        rw [hpos] at hbad
        exact ih (cur + NS + 4 + 4) _ j'
          (by rw [hmul] at hb; omega) (by omega) hbad

theorem openArchive_parsed (NS : Nat) (ld : Bool) (det : List Nat → String)
    (buf : List Nat) (a : Arch)
    (hlen : HEADER_SIZE ≤ buf.length) (hmagic : buf.take 4 = magicBytes) :
    openArchive NS ld det buf a = openParsedResult NS ld det buf a := by
  have h1 : ¬ buf.length < HEADER_SIZE := by omega
  have h04 : (0 : Nat) + 4 ≤ buf.length := by
    unfold HEADER_SIZE at hlen
    omega
  have h042 : (0 : Nat) + 4 + 2 ≤ buf.length := by
    unfold HEADER_SIZE at hlen
    omega
  simp only [openArchive, openParsedResult, h1, if_false, rdBytes, h04, h042,
    if_pos, if_true, Option.getD_some, List.drop_zero, hmagic, ite_not]
  simp only [Nat.zero_add]
  rfl

/-- C2 (amended): when some directory slot read during open declares a
32 bit wrapped offset plus size exceeding the buffer length, open
returns failure, sets the corrupt archive error, restores the muted
flag and leaves the modified flag alone, but it does not roll the
directory back: the entries parsed from the slots before the bad one
remain appended after the pre-open directory, which stays a prefix of
the final directory. -/
theorem c2_partial_retained (NS : Nat) (ld : Bool) (det : List Nat → String)
    (buf : List Nat) (a : Arch) (j : Nat)
    (hlen : HEADER_SIZE ≤ buf.length)
    (hmagic : buf.take 4 = magicBytes)
    (hslots : HEADER_SIZE + rd16 ((buf.drop 4).take 2) * (NS + 8) ≤ buf.length)
    (hj : j < rd16 ((buf.drop 4).take 2))
    (hbad : (slotOffset NS buf (HEADER_SIZE + j * (NS + 8)) +
      slotSize NS buf (HEADER_SIZE + j * (NS + 8))) % M32 > buf.length) :
    (openArchive NS ld det buf a).ok = false ∧
    (openArchive NS ld det buf a).errSet =
      some ("Archive is invalid and/or corrupt") ∧
    (openArchive NS ld det buf a).arch.muted = false ∧
    (openArchive NS ld det buf a).arch.modified = a.modified ∧
    ((openArchive NS ld det buf a).arch.dir).take a.dir.length = a.dir := by
  rw [openArchive_parsed NS ld det buf a hlen hmagic]
  have hfail := readDirLoop_fails_of_badSlot NS buf (rd16 ((buf.drop 4).take 2))
    HEADER_SIZE a.dir j hslots hj hbad
  simp only [openParsedResult]
  rw [if_pos hfail]
  refine ⟨rfl, rfl, rfl, rfl, ?_⟩
  obtain ⟨t, ht⟩ := readDirLoop_extends NS (rd16 ((buf.drop 4).take 2))
    ⟨buf, HEADER_SIZE⟩ a.dir
  simp only [ht]
  exact List.take_left _ _

/-- C2 witness: the amended abort behaviour on the concrete 54 byte
buffer whose second slot is out of bounds, starting from a one entry
archive whose directory survives the failed open. -/
theorem c2_partial_retained_witness :
    HEADER_SIZE ≤ c2ceBuf.length ∧
    c2ceBuf.take 4 = magicBytes ∧
    HEADER_SIZE + rd16 ((c2ceBuf.drop 4).take 2) * (16 + 8) ≤ c2ceBuf.length ∧
    1 < rd16 ((c2ceBuf.drop 4).take 2) ∧
    (slotOffset 16 c2ceBuf (HEADER_SIZE + 1 * (16 + 8)) +
      slotSize 16 c2ceBuf (HEADER_SIZE + 1 * (16 + 8))) % M32 > c2ceBuf.length ∧
    (openArchive 16 true (fun _ => "") c2ceBuf c2wArch).ok = false ∧
    ((openArchive 16 true (fun _ => "") c2ceBuf c2wArch).arch.dir).take
        c2wArch.dir.length = c2wArch.dir :=
  ⟨by decide, by decide, by decide, by decide, by decide,
   (c2_partial_retained 16 true (fun _ => "") c2ceBuf c2wArch 1
     (by decide) (by decide) (by decide) (by decide) (by decide)).1,
   (c2_partial_retained 16 true (fun _ => "") c2ceBuf c2wArch 1
     (by decide) (by decide) (by decide) (by decide) (by decide)).2.2.2.2⟩

/-- C6 witness: the amended layout claim at a concrete one entry
directory with a three byte payload, NS = 16 and MAX = 2. -/
theorem c6_write_layout_witness :
    (write 16 2 [c6wEntry] true).ok = true ∧
    (write 16 2 [c6wEntry] true).out.length
      = headerTocSize 16 2 + sizesSum [c6wEntry] ∧
    (write 16 2 [c6wEntry] true).dirAfter.map (fun e => e.offsetProp)
      = (List.range ([c6wEntry] : List CEntry).length).map
          (fun i => headerTocSize 16 2 + sizesSum (([c6wEntry] : List CEntry).take i)) ∧
    (write 16 2 [c6wEntry] true).out.drop (headerTocSize 16 2)
      = (([c6wEntry] : List CEntry).map (fun e => e.data)).flatten :=
  c6_write_layout 16 2 [c6wEntry] (by decide) (by decide) (by decide)
    (by decide) (by decide)

/-- C7 witness: the amended truncation claim at a concrete entry with a
20 byte name, NS = 16 and MAX = 2, instantiated at slot 0. -/
theorem c7_name_truncation_witness :
    (write 16 2 [c7wEntry] true).ok = true ∧
    (((write 16 2 [c7wEntry] true).out.drop (HEADER_SIZE + (16 + 8) * 0)).take 16
        = (16 - 1) :: (([c7wEntry] : List CEntry).get ⟨0, by decide⟩).name.take (16 - 1) ∧
      (([c7wEntry] : List CEntry).get ⟨0, by decide⟩).name
        ∈ (write 16 2 [c7wEntry] true).warned) :=
  ⟨(c7_name_truncation 16 2 [c7wEntry] (by decide) (by decide) (by decide)
      (by decide) (by decide) (by decide)).1,
   (c7_name_truncation 16 2 [c7wEntry] (by decide) (by decide) (by decide)
      (by decide) (by decide) (by decide)).2 0 (by decide) (by decide)⟩

theorem nameData_short {NS : Nat} (nm : List Nat) (h1 : nm.length ≤ NS - 1)
    (h2 : NS ≤ 256) :
    nameData NS nm
      = (nm.length :: (nm ++ List.replicate (NS - 1 - nm.length) 0), false) := by
  have hl : nm.length % 256 = nm.length := Nat.mod_eq_of_lt (by omega)
  simp only [nameData, hl]
  rw [if_neg (by omega), List.take_length]

theorem readDirLoop_parses (NS : Nat) (hNS : 1 ≤ NS) (hNS256 : NS ≤ 256)
    (buf : List Nat) :
    ∀ (es : List CEntry) (off cur : Nat) (d : List CEntry) (r0 : List Nat),
      buf.drop cur = recordsFrom NS off es ++ r0 →
      off + sizesSum es ≤ buf.length →
      off + sizesSum es < M32 →
      (∀ e ∈ es, e.name.length ≤ NS - 1 ∧ ¬ 0 ∈ e.name) →
      readDirLoop NS es.length ⟨buf, cur⟩ d =
        (true, d ++ openedEntries off es, ⟨buf, cur + es.length * (NS + 8)⟩) := by
  intro es
  induction es with
  | nil =>
    intro off cur d r0 _ _ _ _
    simp [readDirLoop, openedEntries]
  | cons e rest ih =>
    intro off cur d r0 hdec hfit hwrap hnames
    obtain ⟨hn1, hn2⟩ := hnames e (List.mem_cons_self e rest)
    have hnames' : ∀ e' ∈ rest, e'.name.length ≤ NS - 1 ∧ ¬ 0 ∈ e'.name :=
      fun e' he' => hnames e' (List.mem_cons_of_mem e he')
    have hs : sizesSum (e :: rest) = e.size + sizesSum rest := by simp [sizesSum]
    rw [hs] at hfit hwrap
    have hfield_len := nameData_fst_length hNS e.name
    have hdec' : buf.drop cur = (nameData NS e.name).1 ++ (le32 e.size ++
        (le32 off ++ (recordsFrom NS ((off + e.size) % M32) rest ++ r0))) := by
      rw [hdec]
      simp [recordsFrom, List.append_assoc]
    have hlendrop : buf.length - cur = NS + 8 +
        ((recordsFrom NS ((off + e.size) % M32) rest).length + r0.length) := by
      have h := congrArg List.length hdec'
      simp only [List.length_drop, List.length_append, hfield_len, le32_length] at h
      omega
    have hcur8 : cur + (NS + 8) ≤ buf.length := by omega
    have hsz : e.size < M32 := by omega
    have hoff : off < M32 := by omega
    have hdropNS : buf.drop (cur + NS) = le32 e.size ++
        (le32 off ++ (recordsFrom NS ((off + e.size) % M32) rest ++ r0)) := by
      rw [← List.drop_drop, hdec']
      exact List.drop_left' hfield_len
    have hdropNS4 : buf.drop (cur + NS + 4) =
        le32 off ++ (recordsFrom NS ((off + e.size) % M32) rest ++ r0) := by
      rw [← List.drop_drop, hdropNS]
      exact List.drop_left' (le32_length _)
    have hdrop8 : buf.drop (cur + NS + 4 + 4) =
        recordsFrom NS ((off + e.size) % M32) rest ++ r0 := by
      rw [← List.drop_drop, hdropNS4]
      exact List.drop_left' (le32_length _)
    have hslotsz : slotSize NS buf cur = e.size := by
      unfold slotSize
      rw [hdropNS, List.take_left' (le32_length _), rd32_le32 hsz]
    have hslotoff : slotOffset NS buf cur = off := by
      unfold slotOffset
      rw [hdropNS4, List.take_left' (le32_length _), rd32_le32 hoff]
    have hraw : (buf.drop cur).take NS = (nameData NS e.name).1 := by
      rw [hdec']
      exact List.take_left' hfield_len
    have hrs := readSlot_of_inBounds NS buf cur hcur8
    rw [hraw, hslotsz, hslotoff] at hrs
    have hmod : (off + e.size) % M32 = off + e.size := Nat.mod_eq_of_lt (by omega)
    have hname_eq : takeUntilZero ((nameData NS e.name).1.drop 1) = e.name := by
      rw [nameData_short e.name hn1 hNS256]
      exact takeUntilZero_append_zeros hn2 _
    have ihh := ih ((off + e.size) % M32) (cur + NS + 4 + 4)
      (d ++ [{ name := e.name, size := e.size, data := [], loaded := false,
               state := EState.Unmodified, offsetProp := off, etype := "" }]) r0
      hdrop8 (by rw [hmod]; omega) (by rw [hmod]; omega) hnames'
    simp only [List.length_cons, readDirLoop, hrs]
    rw [if_neg (by rw [hmod]; simp; omega)]
    rw [hname_eq, ihh]
    simp only [openedEntries]
    rw [show cur + NS + 4 + 4 + rest.length * (NS + 8)
        = cur + (rest.length + 1) * (NS + 8) from by rw [Nat.succ_mul]; omega]
    simp [List.append_assoc]

theorem processEntries_restore (det : List Nat → String) (buf : List Nat) :
    ∀ (es : List CEntry) (off : Nat),
      buf.drop off = (es.map (fun e => e.data)).flatten →
      off + sizesSum es < M32 →
      (∀ e ∈ es, e.data.length = e.size ∧ det e.data ≠ "snd_wav") →
      (openedEntries off es).map (processEntry true det buf)
        = restoredEntries det off es := by
  intro es
  induction es with
  | nil =>
    intro off _ _ _
    rfl
  | cons e rest ih =>
    intro off hdec hwrap hprops
    obtain ⟨hdl, hdet⟩ := hprops e (List.mem_cons_self e rest)
    have hprops' : ∀ e' ∈ rest, e'.data.length = e'.size ∧ det e'.data ≠ "snd_wav" :=
      fun e' he' => hprops e' (List.mem_cons_of_mem e he')
    have hs : sizesSum (e :: rest) = e.size + sizesSum rest := by simp [sizesSum]
    rw [hs] at hwrap
    have hmod : (off + e.size) % M32 = off + e.size := Nat.mod_eq_of_lt (by omega)
    have hlen : e.size ≤ buf.length - off := by
      have h := congrArg List.length hdec
      simp only [List.length_drop, List.map_cons, List.flatten_cons,
        List.length_append, hdl] at h
      omega
    have hdecr : buf.drop (off + e.size) = (rest.map (fun e => e.data)).flatten := by
      rw [← List.drop_drop, hdec]
      simp only [List.map_cons, List.flatten_cons]
      rw [← hdl]
      exact List.drop_left _ _
    simp only [openedEntries, restoredEntries, List.map_cons]
    congr 1
    · rcases Nat.eq_zero_or_pos e.size with hz | hp
      · have hdnil : e.data = [] := by
          have h0 : e.data.length = 0 := by rw [hdl, hz]
          exact List.length_eq_zero.mp h0
        simp [processEntry, hz, fixBrokenWave, hdnil, exportRange]
      · have hexp : exportRange buf off e.size = some e.data := by
          unfold exportRange
          rw [if_pos (by omega), hdec]
          simp only [List.map_cons, List.flatten_cons]
          rw [← hdl, List.take_left]
        simp only [processEntry, if_pos hp]
        rw [hexp]
        simp [fixBrokenWave, hdet, hdl, hp]
    · rw [hmod]
      exact ih (off + e.size) hdecr (by omega) hprops'

theorem restoredEntries_proj (det : List Nat → String) :
    ∀ (off : Nat) (es : List CEntry),
      (restoredEntries det off es).map (fun e => (e.name, e.size, e.data))
        = es.map (fun e => (e.name, e.size, e.data)) := by
  intro off es
  induction es generalizing off with
  | nil => rfl
  | cons e rest ih =>
    simp only [restoredEntries, List.map_cons, ih]

/-- C1 (amended): for a directory with at most MAX_ENTRY_COUNT entries
whose names are at most NAME_SIZE - 1 bytes and contain no zero byte,
whose stored sizes equal their payload lengths, whose serialized
archive fits in 32 bits, and whose payloads the type detector does not
classify as snd_wav (whose fixup may rewrite payload bytes), writing
the directory and opening the produced buffer (payload loading on)
succeeds and yields a directory with the same names, the same sizes,
byte identical payloads, in the same order. -/
theorem c1_round_trip (NS MAX : Nat) (dir : List CEntry) (det : List Nat → String)
    (hNS : 1 ≤ NS) (hNS256 : NS ≤ 256)
    (hcount : dir.length ≤ MAX) (hMAX : MAX < 65536)
    (hname : ∀ e ∈ dir, e.name.length ≤ NS - 1 ∧ ¬ 0 ∈ e.name)
    (hdata : ∀ e ∈ dir, e.data.length = e.size ∧ det e.data ≠ "snd_wav")
    (hwrap : headerTocSize NS MAX + sizesSum dir < M32) :
    (write NS MAX dir true).ok = true ∧
    (openArchive NS true det (write NS MAX dir true).out ⟨[], false, false⟩).ok
      = true ∧
    (openArchive NS true det (write NS MAX dir true).out
        ⟨[], false, false⟩).arch.dir.map (fun e => (e.name, e.size, e.data))
      = dir.map (fun e => (e.name, e.size, e.data)) := by
  have hw := write_spec NS MAX dir true hNS hcount hMAX hwrap
  have hfl : (dir.map payloadChunk).flatten = (dir.map (fun e : CEntry => e.data)).flatten := by
    congr 1
    apply List.map_eq_map_iff.mpr
    intro e he
    exact payloadChunk_eq_data (hdata e he).1
  have hok : (write NS MAX dir true).ok = true := by rw [hw]
  have hout : (write NS MAX dir true).out
      = magicBytes ++ le16 dir.length ++ recordsFrom NS (headerTocSize NS MAX) dir ++
        List.replicate ((NS + 8) * (MAX - dir.length)) 0 ++
        (dir.map (fun e : CEntry => e.data)).flatten := by
    rw [hw, ← hfl]
  have hhdr2 : (magicBytes ++ le16 dir.length).length = HEADER_SIZE := by
    simp [magicBytes, le16, HEADER_SIZE]
  have hTlen : (magicBytes ++ le16 dir.length ++
      recordsFrom NS (headerTocSize NS MAX) dir ++
      List.replicate ((NS + 8) * (MAX - dir.length)) 0).length
      = headerTocSize NS MAX := headerTable_length NS MAX dir hNS hcount
  have hflen : ((dir.map (fun e : CEntry => e.data)).flatten).length = sizesSum dir := by
    rw [← hfl, payloadFlatten_length]
  have hBlen : (magicBytes ++ le16 dir.length ++ recordsFrom NS (headerTocSize NS MAX) dir ++
        List.replicate ((NS + 8) * (MAX - dir.length)) 0 ++
        (dir.map (fun e : CEntry => e.data)).flatten).length = headerTocSize NS MAX + sizesSum dir := by
    rw [List.length_append, hTlen, hflen]
  have hlen6 : HEADER_SIZE ≤ (magicBytes ++ le16 dir.length ++ recordsFrom NS (headerTocSize NS MAX) dir ++
        List.replicate ((NS + 8) * (MAX - dir.length)) 0 ++
        (dir.map (fun e : CEntry => e.data)).flatten).length := by
    rw [hBlen, headerTocSize_eq]
    unfold HEADER_SIZE
    omega
  have hBassoc : (magicBytes ++ le16 dir.length ++ recordsFrom NS (headerTocSize NS MAX) dir ++
        List.replicate ((NS + 8) * (MAX - dir.length)) 0 ++
        (dir.map (fun e : CEntry => e.data)).flatten)
      = magicBytes ++ (le16 dir.length ++
          (recordsFrom NS (headerTocSize NS MAX) dir ++
            (List.replicate ((NS + 8) * (MAX - dir.length)) 0 ++
              (dir.map (fun e : CEntry => e.data)).flatten))) := by
    simp [List.append_assoc]
  have hBassoc2 : (magicBytes ++ le16 dir.length ++ recordsFrom NS (headerTocSize NS MAX) dir ++
        List.replicate ((NS + 8) * (MAX - dir.length)) 0 ++
        (dir.map (fun e : CEntry => e.data)).flatten)
      = (magicBytes ++ le16 dir.length) ++
          (recordsFrom NS (headerTocSize NS MAX) dir ++
            (List.replicate ((NS + 8) * (MAX - dir.length)) 0 ++
              (dir.map (fun e : CEntry => e.data)).flatten)) := by
    simp [List.append_assoc]
  have hmagic : (magicBytes ++ le16 dir.length ++ recordsFrom NS (headerTocSize NS MAX) dir ++
        List.replicate ((NS + 8) * (MAX - dir.length)) 0 ++
        (dir.map (fun e : CEntry => e.data)).flatten).take 4 = magicBytes := by
    rw [hBassoc]
    exact List.take_left' rfl
  have hcnt : rd16 (((magicBytes ++ le16 dir.length ++ recordsFrom NS (headerTocSize NS MAX) dir ++
        List.replicate ((NS + 8) * (MAX - dir.length)) 0 ++
        (dir.map (fun e : CEntry => e.data)).flatten).drop 4).take 2) = dir.length := by
    rw [hBassoc, List.drop_left' (show magicBytes.length = 4 from rfl),
      List.take_left' (le16_length _), rd16_le16 (by omega)]
  have hdrop6 : (magicBytes ++ le16 dir.length ++ recordsFrom NS (headerTocSize NS MAX) dir ++
        List.replicate ((NS + 8) * (MAX - dir.length)) 0 ++
        (dir.map (fun e : CEntry => e.data)).flatten).drop HEADER_SIZE
      = recordsFrom NS (headerTocSize NS MAX) dir ++
          (List.replicate ((NS + 8) * (MAX - dir.length)) 0 ++
            (dir.map (fun e : CEntry => e.data)).flatten) := by
    rw [hBassoc2]
    exact List.drop_left' hhdr2
  have hdropHtoc : (magicBytes ++ le16 dir.length ++ recordsFrom NS (headerTocSize NS MAX) dir ++
        List.replicate ((NS + 8) * (MAX - dir.length)) 0 ++
        (dir.map (fun e : CEntry => e.data)).flatten).drop (headerTocSize NS MAX)
      = (dir.map (fun e : CEntry => e.data)).flatten :=
    List.drop_left' hTlen
  have hloop := readDirLoop_parses NS hNS hNS256
    (magicBytes ++ le16 dir.length ++ recordsFrom NS (headerTocSize NS MAX) dir ++
        List.replicate ((NS + 8) * (MAX - dir.length)) 0 ++
        (dir.map (fun e : CEntry => e.data)).flatten) dir (headerTocSize NS MAX) HEADER_SIZE []
    (List.replicate ((NS + 8) * (MAX - dir.length)) 0 ++
      (dir.map (fun e : CEntry => e.data)).flatten)
    hdrop6 (le_of_eq hBlen.symm) hwrap hname
  have hopen : openArchive NS true det (write NS MAX dir true).out ⟨[], false, false⟩
      = { ok := true,
          arch := { dir := restoredEntries det (headerTocSize NS MAX) dir,
                    modified := false, muted := false },
          errSet := none } := by
    rw [hout, openArchive_parsed NS true det _ _ hlen6 hmagic]
    simp only [openParsedResult, hcnt, hloop]
    rw [if_neg (by simp)]
    simp only [List.nil_append]
    rw [processEntries_restore det (magicBytes ++ le16 dir.length ++ recordsFrom NS (headerTocSize NS MAX) dir ++
        List.replicate ((NS + 8) * (MAX - dir.length)) 0 ++
        (dir.map (fun e : CEntry => e.data)).flatten) dir (headerTocSize NS MAX)
      hdropHtoc hwrap hdata]
  exact ⟨hok, by rw [hopen], by
    rw [hopen]
    exact restoredEntries_proj det _ dir⟩

/-- C1 witness: the amended round trip at a concrete one entry
directory (name A, two byte payload), NS = 16 and MAX = 2, with a
detector that classifies nothing as snd_wav. -/
theorem c1_round_trip_witness :
    (write 16 2 [c1wEntry] true).ok = true ∧
    (openArchive 16 true (fun _ => "") (write 16 2 [c1wEntry] true).out
      ⟨[], false, false⟩).ok = true ∧
    (openArchive 16 true (fun _ => "") (write 16 2 [c1wEntry] true).out
        ⟨[], false, false⟩).arch.dir.map (fun e => (e.name, e.size, e.data))
      = ([c1wEntry] : List CEntry).map (fun e => (e.name, e.size, e.data)) :=
  c1_round_trip 16 2 [c1wEntry] (fun _ => "") (by decide) (by decide) (by decide)
    (by decide) (by decide) (by decide) (by decide)

end ChasmBin
